import Mathlib

/-!
# Verification of the FEM heat-equation solver

This file gives a shallow embedding, over exact rational arithmetic, of the
`HeatEquationSolver` façade in `src/fem/heat_solver.py` together with the
finite-element pipeline it drives (mesh generation, P1 assembly, Dirichlet
boundary-condition enforcement and the linear solve).  The façade —
parameter storage, validation, stage sequencing, and the `mesh`/`solution`
attributes — is translated from the Python source.  The numerical stages are
delegated by the source to the external `dolfin` library, so they are
modelled from the design specification (§4.1–§4.5): structured triangular
mesh of the unit square, P1 basis gradients via the affine map, local
stiffness `k·Area·(∇φᵢ·∇φⱼ)` and load `f·Area/3` scatter-added into the
global system, row elimination with right-edge precedence for the boundary
conditions, and a direct linear solve of the constrained system.
-/

namespace FEMHeat

/-- Error identities of the pipeline (§7).  The Python façade raises
`ValueError` with the recorded messages during validation; the remaining
kinds are the spec's error identities for the delegated stages. -/
inductive SolveError where
  | invalidParameter (msg : String)
  | degenerateElement
  | noBoundaryDofsFound
  | singularSystem
  deriving Repr, DecidableEq

/-- The parameter bag built by `HeatEquationSolver.__init__` (`self.params`).
Real-valued parameters are modelled as rationals; the resolution is an
integer as in Python. -/
structure Params where
  k : ℚ
  f : ℚ
  left_temp : ℚ
  right_temp : ℚ
  mesh_resolution : ℤ
  deriving Repr, DecidableEq

/-- A mesh: ordered vertex coordinates and triangles as vertex-index
triples (§3, data model). -/
structure MeshData where
  vertices : List (ℚ × ℚ)
  triangles : List (ℕ × ℕ × ℕ)
  deriving Repr, DecidableEq

/-- The mutable state of a `HeatEquationSolver` instance: the parameter bag
and the `self.mesh` / `self.solution` attributes (both `None` after
`__init__`). -/
structure SolverState where
  params : Params
  mesh : Option MeshData
  solution : Option (List ℚ)
  deriving Repr, DecidableEq

/-- The constructor `HeatEquationSolver.__init__`: store the parameters, set `mesh` and
`solution` to `None`.  No validation happens here. -/
def mkSolver (k f left_temp right_temp : ℚ) (mesh_resolution : ℤ) : SolverState :=
  { params := ⟨k, f, left_temp, right_temp, mesh_resolution⟩
    mesh := none
    solution := none }

/-- Validation `_validate_parameters`: conductivity must be positive, resolution at
least 4; checked in this order, nothing else is inspected. -/
def validateParameters (p : Params) : Option SolveError :=
  if p.k ≤ 0 then some (.invalidParameter "Thermal conductivity must be positive")
  else if p.mesh_resolution < 4 then some (.invalidParameter "Mesh resolution must be at least 4")
  else none

/-! ## Mesh generation (§4.1)

Modelled from the spec: the source delegates to `dolfin.UnitSquareMesh`.
The spec fixes a structured grid of the unit square with `(n+1)²` vertices
in row-major order (vertex index = row·(n+1) + column, coordinates spaced
by `1/n`) and `2n²` triangles, each grid cell split along a consistent
diagonal. -/

/-- Row-major flat index of grid vertex (column `i`, row `j`). -/
def vertexIndex (n i j : ℕ) : ℕ := j * (n + 1) + i

/-- Row `j` of the vertex grid. -/
def meshRow (n j : ℕ) : List (ℚ × ℚ) :=
  (List.range (n + 1)).map fun (i : ℕ) => ((i : ℚ) / n, (j : ℚ) / n)

/-- The `(n+1)²` grid vertices of the unit square, row-major. -/
def meshVertices (n : ℕ) : List (ℚ × ℚ) :=
  (List.range (n + 1)).flatMap (meshRow n)

/-- The `2n²` triangles: each cell `(i,j)` is split along the diagonal from
its lower-left to its upper-right corner into a lower and an upper
triangle. -/
def meshTriangles (n : ℕ) : List (ℕ × ℕ × ℕ) :=
  (List.range n).flatMap fun j =>
    (List.range n).flatMap fun i =>
      [(vertexIndex n i j, vertexIndex n (i + 1) j, vertexIndex n (i + 1) (j + 1)),
       (vertexIndex n i j, vertexIndex n (i + 1) (j + 1), vertexIndex n i (j + 1))]

/-- Mesh creation `_create_mesh`: build the structured mesh of the unit square. -/
def createMesh (n : ℕ) : MeshData := ⟨meshVertices n, meshTriangles n⟩

/-! ## Function space and element matrices (§4.2, §4.3)

Modelled from the spec: P1 basis gradients are constant per triangle and
computed from the affine map (the gradient of basis `i` is the rotated edge
vector opposite vertex `i`, scaled by `1/(2·Area)`); the local stiffness is
`k·Area·(∇φᵢ·∇φⱼ)` and the local load is `f·Area/3`. -/

/-- Determinant of the affine map of the triangle `(p0, p1, p2)`
(twice its signed area). -/
def triDet (p0 p1 p2 : ℚ × ℚ) : ℚ :=
  (p1.1 - p0.1) * (p2.2 - p0.2) - (p1.2 - p0.2) * (p2.1 - p0.1)

/-- Signed area of a triangle. -/
def triArea (p0 p1 p2 : ℚ × ℚ) : ℚ := triDet p0 p1 p2 / 2

/-- Constant gradients of the three P1 basis functions on the triangle
`(p0, p1, p2)`, via the standard affine map; `∇φ₀ = -∇φ₁ - ∇φ₂`. -/
def gradPhi (p0 p1 p2 : ℚ × ℚ) : Fin 3 → ℚ × ℚ
  | 0 => (-((p2.2 - p0.2) / triDet p0 p1 p2) - -(p1.2 - p0.2) / triDet p0 p1 p2,
          -(-((p2.1 - p0.1) / triDet p0 p1 p2)) - (p1.1 - p0.1) / triDet p0 p1 p2)
  | 1 => ((p2.2 - p0.2) / triDet p0 p1 p2, -(p2.1 - p0.1) / triDet p0 p1 p2)
  | 2 => (-(p1.2 - p0.2) / triDet p0 p1 p2, (p1.1 - p0.1) / triDet p0 p1 p2)

/-- Dot product in the plane. -/
def dot2 (u v : ℚ × ℚ) : ℚ := u.1 * v.1 + u.2 * v.2

/-- Local stiffness entry `K_e[a][b] = k · Area · (∇φ_a · ∇φ_b)` (§4.3). -/
def localStiffness (k : ℚ) (p0 p1 p2 : ℚ × ℚ) (a b : Fin 3) : ℚ :=
  k * triArea p0 p1 p2 * dot2 (gradPhi p0 p1 p2 a) (gradPhi p0 p1 p2 b)

/-- Local load entry `F_e[a] = f · Area / 3` (§4.3). -/
def localLoad (f : ℚ) (p0 p1 p2 : ℚ × ℚ) : ℚ := f * triArea p0 p1 p2 / 3

/-- Degree-of-freedom index: one DOF per grid vertex, identified by its
(column, row) pair (the function space is the identity map vertex ↔ DOF). -/
abbrev VIdx (n : ℕ) := Fin (n + 1) × Fin (n + 1)

/-- Coordinates of a grid vertex. -/
def vertexCoord (n : ℕ) (p : VIdx n) : ℚ × ℚ := ((p.1 : ℚ) / n, (p.2 : ℚ) / n)

/-- The three vertices of triangle `t` (0 = lower, 1 = upper) of grid cell
`c`, matching the connectivity of `meshTriangles`. -/
def triVertex {n : ℕ} (c : Fin n × Fin n) : Fin 2 → Fin 3 → VIdx n
  | 0, 0 => (c.1.castSucc, c.2.castSucc)
  | 0, 1 => (c.1.succ, c.2.castSucc)
  | 0, 2 => (c.1.succ, c.2.succ)
  | 1, 0 => (c.1.castSucc, c.2.castSucc)
  | 1, 1 => (c.1.succ, c.2.succ)
  | 1, 2 => (c.1.castSucc, c.2.succ)

/-- Local stiffness entry of triangle `t` of cell `c`, at the actual grid
coordinates. -/
def elemK (n : ℕ) (k : ℚ) (c : Fin n × Fin n) (t : Fin 2) (a b : Fin 3) : ℚ :=
  localStiffness k (vertexCoord n (triVertex c t 0)) (vertexCoord n (triVertex c t 1))
    (vertexCoord n (triVertex c t 2)) a b

/-- Local load entry of triangle `t` of cell `c`. -/
def elemF (n : ℕ) (f : ℚ) (c : Fin n × Fin n) (t : Fin 2) : ℚ :=
  localLoad f (vertexCoord n (triVertex c t 0)) (vertexCoord n (triVertex c t 1))
    (vertexCoord n (triVertex c t 2))

/-- Global stiffness matrix: additive scatter of every triangle's local
matrix into the global DOF pairs (§4.3). -/
def stiffness (n : ℕ) (k : ℚ) : Matrix (VIdx n) (VIdx n) ℚ := fun p q =>
  ∑ c : Fin n × Fin n, ∑ t : Fin 2, ∑ a : Fin 3, ∑ b : Fin 3,
    if triVertex c t a = p ∧ triVertex c t b = q then elemK n k c t a b else 0

/-- Global load vector: additive scatter of every triangle's local load
vector (§4.3). -/
def loadVec (n : ℕ) (f : ℚ) : VIdx n → ℚ := fun p =>
  ∑ c : Fin n × Fin n, ∑ t : Fin 2, ∑ a : Fin 3,
    if triVertex c t a = p then elemF n f c t else 0

/-! ## Boundary-condition enforcement (§4.4)

Modelled from the spec: DOFs on the left edge (`x ≈ 0`) get `left_temp`,
DOFs on the right edge (`x ≈ 1`) get `right_temp`, with right-edge
precedence on a DOF matching both predicates; enforcement is by symmetric
row elimination.  On the exact rational grid the `near`-style tolerance
comparison of the source coincides with exact equality of coordinates.
It fails with `NoBoundaryDofsFound` when either edge predicate matches no
DOF. -/

/-- A DOF is constrained when its vertex lies on the left or right edge. -/
def bcConstrained (n : ℕ) (coords : VIdx n → ℚ × ℚ) (p : VIdx n) : Prop :=
  (coords p).1 = 0 ∨ (coords p).1 = 1

instance (n : ℕ) (coords : VIdx n → ℚ × ℚ) : DecidablePred (bcConstrained n coords) :=
  fun _ => inferInstanceAs (Decidable (_ ∨ _))

/-- Prescribed value of a constrained DOF; the right edge takes precedence. -/
def bcValue (n : ℕ) (coords : VIdx n → ℚ × ℚ) (left_temp right_temp : ℚ) (p : VIdx n) : ℚ :=
  if (coords p).1 = 1 then right_temp else left_temp

/-- Row elimination on the matrix: constrained rows become identity rows and
constrained columns of the remaining rows are zeroed (§4.4). -/
def applyBCMatrix (n : ℕ) (A : Matrix (VIdx n) (VIdx n) ℚ)
    (constrained : VIdx n → Prop) [DecidablePred constrained] :
    Matrix (VIdx n) (VIdx n) ℚ := fun p q =>
  if constrained p then (if q = p then 1 else 0)
  else if constrained q then 0 else A p q

/-- Row elimination on the right-hand side: constrained entries become the
prescribed values, and every other entry absorbs the eliminated column
contributions (§4.4). -/
def applyBCVector (n : ℕ) (A : Matrix (VIdx n) (VIdx n) ℚ) (b : VIdx n → ℚ)
    (constrained : VIdx n → Prop) [DecidablePred constrained]
    (value : VIdx n → ℚ) : VIdx n → ℚ := fun p =>
  if constrained p then value p
  else b p - ∑ q : VIdx n, (if constrained q then A p q * value q else 0)

/-- Enforcement `_apply_boundary_conditions` as the spec's enforcer component: check
that both edge predicates match at least one DOF, then eliminate. -/
def applyBoundaryConditions (n : ℕ) (coords : VIdx n → ℚ × ℚ)
    (A : Matrix (VIdx n) (VIdx n) ℚ) (b : VIdx n → ℚ) (left_temp right_temp : ℚ) :
    Except SolveError (Matrix (VIdx n) (VIdx n) ℚ × (VIdx n → ℚ)) :=
  if (∃ p : VIdx n, (coords p).1 = 0) ∧ (∃ p : VIdx n, (coords p).1 = 1) then
    .ok (applyBCMatrix n A (bcConstrained n coords),
         applyBCVector n A b (bcConstrained n coords)
           (bcValue n coords left_temp right_temp))
  else .error .noBoundaryDofsFound

/-! ## Linear solver (§4.5)

Modelled from the spec: any method meeting the contract — return `u` with
`A·u = b`, failing with `SingularSystem` when the system is not solvable —
is acceptable; this model uses the exact direct solve by Cramer's rule. -/

/-- Direct linear solve: `uᵢ = det(A with column i replaced by b) / det A`,
failing exactly when `A` is singular. -/
def solveLinearSystem {ι : Type} [Fintype ι] [DecidableEq ι]
    (A : Matrix ι ι ℚ) (b : ι → ℚ) : Option (ι → ℚ) :=
  if A.det = 0 then none else some fun i => (A.updateColumn i b).det / A.det

/-! ## The façade (`HeatEquationSolver.solve`) -/

/-- Unflatten a row-major vertex index into its (column, row) pair. -/
def unflatten (n : ℕ) (v : Fin ((n + 1) * (n + 1))) : VIdx n :=
  (⟨v.val % (n + 1), Nat.mod_lt _ (Nat.succ_pos n)⟩,
   ⟨v.val / (n + 1), Nat.div_lt_of_lt_mul v.isLt⟩)

/-- The solution as a dense vector in row-major vertex order. -/
def solutionList (n : ℕ) (u : VIdx n → ℚ) : List ℚ :=
  List.ofFn fun v : Fin ((n + 1) * (n + 1)) => u (unflatten n v)

/-- The operation `solve()`: validate, build the mesh, set up the problem, apply the
boundary conditions, solve.  The result carries the instance state as the
Python object mutates it (`self.mesh`, `self.solution`), both on success
and at the point a stage raises. -/
def solveState (s : SolverState) :
    Except (SolveError × SolverState) (SolverState × MeshData × List ℚ) :=
  match validateParameters s.params with
  | some e => .error (e, s)
  | none =>
    let n := s.params.mesh_resolution.toNat
    let m := createMesh n
    let s₁ : SolverState := { s with mesh := some m }
    -- function-space setup: defensive degenerate-element guard (§4.2)
    if ∃ (c : Fin n × Fin n) (t : Fin 2),
        triDet (vertexCoord n (triVertex c t 0)) (vertexCoord n (triVertex c t 1))
          (vertexCoord n (triVertex c t 2)) = 0 then
      .error (.degenerateElement, s₁)
    else
      let A := stiffness n s.params.k
      let b := loadVec n s.params.f
      match applyBoundaryConditions n (vertexCoord n) A b
          s.params.left_temp s.params.right_temp with
      | .error e => .error (e, s₁)
      | .ok (Ae, be) =>
        match solveLinearSystem Ae be with
        | none => .error (.singularSystem, s₁)
        | some u =>
          let sol := solutionList n u
          .ok ({ s₁ with solution := some sol }, m, sol)

/-- The caller-visible outcome of `solve()`: the error identity on failure,
the `(mesh, solution)` pair on success. -/
def resultOf (r : Except (SolveError × SolverState) (SolverState × MeshData × List ℚ)) :
    Except SolveError (MeshData × List ℚ) :=
  match r with
  | .error (e, _) => .error e
  | .ok (_, m, u) => .ok (m, u)

/-- The spec's analytic nodal solution for a zero source: the linear
interpolation `left_temp + x · (right_temp - left_temp)` along the x-axis,
independent of y (§8). -/
def interp (n : ℕ) (left_temp right_temp : ℚ) : VIdx n → ℚ := fun p =>
  left_temp + ((p.1 : ℚ) / n) * (right_temp - left_temp)

/-! ## Mesh counting and indexing lemmas -/

/-- Flattening uniformly sized blocks: total length. -/
theorem flatMap_range_uniform_length {α : Type} (f : ℕ → List α) (L : ℕ)
    (hL : ∀ j, (f j).length = L) (m : ℕ) :
    ((List.range m).flatMap f).length = m * L := by
  induction m with
  | zero => simp
  | succ m ih =>
    have hsplit : (List.range (m+1)).flatMap f = (List.range m).flatMap f ++ f m := by
      rw [List.range_succ, List.flatMap_append]; simp
    rw [hsplit, List.length_append, ih, hL]; ring

/-- Flattening uniformly sized blocks: element lookup. -/
theorem flatMap_range_uniform_getElem {α : Type} (f : ℕ → List α) (L : ℕ)
    (hL : ∀ j, (f j).length = L) (m : ℕ) :
    ∀ v, v < m * L → ∀ (hv : v < ((List.range m).flatMap f).length)
      (hb : v % L < (f (v / L)).length),
      ((List.range m).flatMap f)[v] = (f (v / L))[v % L] := by
  induction m with
  | zero => intro v hv0; omega
  | succ m ih =>
    intro v hv hv' hb
    have hsplit : (List.range (m+1)).flatMap f = (List.range m).flatMap f ++ f m := by
      rw [List.range_succ, List.flatMap_append]; simp
    have hLpos : 0 < L := Nat.pos_of_ne_zero (by rintro rfl; omega)
    rw [List.getElem_of_eq hsplit]
    by_cases hcase : v < m * L
    · rw [List.getElem_append_left (by rw [flatMap_range_uniform_length f L hL m]; exact hcase)]
      exact ih v hcase (by rw [flatMap_range_uniform_length f L hL m]; exact hcase) hb
    · push_neg at hcase
      have hvm : v - m * L < L := by
        have : v < m * L + L := by have := hv; ring_nf at this ⊢; omega
        omega
      have hdiv : v / L = m := by
        apply Nat.div_eq_of_lt_le hcase
        calc v < (m + 1) * L := hv
        _ = (m + 1) * L := rfl
      have hmod : v % L = v - m * L := by
        have hdm := Nat.div_add_mod v L
        rw [hdiv] at hdm
        have h2 : L * m = m * L := Nat.mul_comm L m
        omega
      rw [List.getElem_append_right (by rw [flatMap_range_uniform_length f L hL m]; exact hcase)]
      have key : ∀ (i j : ℕ) (h : i < (f m).length) (h2 : j < (f (v / L)).length),
          i = j → v / L = m → (f m)[i] = (f (v / L))[j] := by
        rintro i j h h2 rfl rfl; rfl
      apply key _ _ _ _ (by rw [flatMap_range_uniform_length f L hL m, hmod]) hdiv

theorem meshVertices_length (n : ℕ) : (meshVertices n).length = (n + 1) * (n + 1) := by
  rw [meshVertices]
  exact flatMap_range_uniform_length (meshRow n) (n + 1) (fun j => by simp [meshRow]) (n + 1)

theorem meshVertices_getElem (n v : ℕ) (hv : v < (n + 1) * (n + 1))
    (hlen : v < (meshVertices n).length) :
    (meshVertices n)[v] = ((↑(v % (n + 1)) : ℚ) / n, (↑(v / (n + 1)) : ℚ) / n) := by
  have hrow : ∀ j, (meshRow n j).length = n + 1 := fun j => by simp [meshRow]
  have hb : v % (n + 1) < (meshRow n (v / (n + 1))).length := by
    rw [hrow]; exact Nat.mod_lt _ (Nat.succ_pos n)
  have h := flatMap_range_uniform_getElem (meshRow n) (n + 1) hrow (n + 1)
    v hv (by rw [flatMap_range_uniform_length (meshRow n) (n + 1) hrow]; exact hv) hb
  have hEq : meshVertices n = (List.range (n + 1)).flatMap (meshRow n) := by rw [meshVertices]
  rw [List.getElem_of_eq hEq, h]
  simp [meshRow]

theorem meshTriangles_length (n : ℕ) : (meshTriangles n).length = 2 * n ^ 2 := by
  have hinner : ∀ j : ℕ, ((List.range n).flatMap fun i =>
      [(vertexIndex n i j, vertexIndex n (i + 1) j, vertexIndex n (i + 1) (j + 1)),
       (vertexIndex n i j, vertexIndex n (i + 1) (j + 1), vertexIndex n i (j + 1))]).length
      = n * 2 :=
    fun j => flatMap_range_uniform_length _ 2 (fun _ => by simp) n
  have h := flatMap_range_uniform_length (fun j => (List.range n).flatMap fun i =>
      [(vertexIndex n i j, vertexIndex n (i + 1) j, vertexIndex n (i + 1) (j + 1)),
       (vertexIndex n i j, vertexIndex n (i + 1) (j + 1), vertexIndex n i (j + 1))])
      (n * 2) hinner n
  rw [meshTriangles, h]; ring

/-! ## Indicator-sum collapse over grid cells -/

theorem sum_castSucc_eq {n : ℕ} (a : Fin (n + 1)) (v : ℚ) :
    ∑ i : Fin n, (if i.castSucc = a then v else 0) = if a.val < n then v else 0 := by
  by_cases h : a.val < n
  · rw [if_pos h, Finset.sum_eq_single (⟨a.val, h⟩ : Fin n)]
    · simp [Fin.castSucc, Fin.ext_iff]
    · intro b _ hb
      rw [if_neg]
      intro hc
      exact hb (by rw [Fin.ext_iff] at hc ⊢; simpa using hc)
    · simp
  · rw [if_neg h]
    apply Finset.sum_eq_zero
    intro i _
    rw [if_neg]
    intro hc
    exact h (hc ▸ i.isLt)

theorem sum_succ_eq {n : ℕ} (a : Fin (n + 1)) (v : ℚ) :
    ∑ i : Fin n, (if i.succ = a then v else 0) = if 0 < a.val then v else 0 := by
  by_cases h : 0 < a.val
  · have hlt : a.val - 1 < n := by omega
    rw [if_pos h, Finset.sum_eq_single (⟨a.val - 1, hlt⟩ : Fin n)]
    · simp [Fin.ext_iff]; omega
    · intro b _ hb
      rw [if_neg]
      intro hc
      rw [Fin.ext_iff] at hc
      simp at hc
      exact hb (by rw [Fin.ext_iff]; simp; omega)
    · simp
  · rw [if_neg h]
    apply Finset.sum_eq_zero
    intro i _
    rw [if_neg]
    intro hc
    rw [Fin.ext_iff] at hc
    simp at hc
    omega

theorem sum_cell_cc {n : ℕ} (a b : Fin (n + 1)) (v : ℚ) :
    ∑ c : Fin n × Fin n, (if c.1.castSucc = a ∧ c.2.castSucc = b then v else 0)
    = if a.val < n ∧ b.val < n then v else 0 := by
  rw [Fintype.sum_prod_type]
  have hrow : ∀ i : Fin n, ∑ j : Fin n, (if i.castSucc = a ∧ j.castSucc = b then v else 0)
      = if i.castSucc = a then (if b.val < n then v else 0) else 0 := by
    intro i
    by_cases hP : i.castSucc = a
    · simp only [hP, true_and]; exact sum_castSucc_eq b v
    · simp [hP]
  simp only [hrow, sum_castSucc_eq]
  by_cases ha : a.val < n <;> by_cases hb : b.val < n <;> simp [ha, hb]

theorem sum_cell_sc {n : ℕ} (a b : Fin (n + 1)) (v : ℚ) :
    ∑ c : Fin n × Fin n, (if c.1.succ = a ∧ c.2.castSucc = b then v else 0)
    = if 0 < a.val ∧ b.val < n then v else 0 := by
  rw [Fintype.sum_prod_type]
  have hrow : ∀ i : Fin n, ∑ j : Fin n, (if i.succ = a ∧ j.castSucc = b then v else 0)
      = if i.succ = a then (if b.val < n then v else 0) else 0 := by
    intro i
    by_cases hP : i.succ = a
    · simp only [hP, true_and]; exact sum_castSucc_eq b v
    · simp [hP]
  simp only [hrow, sum_succ_eq]
  by_cases ha : 0 < a.val <;> by_cases hb : b.val < n <;> simp [ha, hb]

theorem sum_cell_ss {n : ℕ} (a b : Fin (n + 1)) (v : ℚ) :
    ∑ c : Fin n × Fin n, (if c.1.succ = a ∧ c.2.succ = b then v else 0)
    = if 0 < a.val ∧ 0 < b.val then v else 0 := by
  rw [Fintype.sum_prod_type]
  have hrow : ∀ i : Fin n, ∑ j : Fin n, (if i.succ = a ∧ j.succ = b then v else 0)
      = if i.succ = a then (if 0 < b.val then v else 0) else 0 := by
    intro i
    by_cases hP : i.succ = a
    · simp only [hP, true_and]; exact sum_succ_eq b v
    · simp [hP]
  simp only [hrow, sum_succ_eq]
  by_cases ha : 0 < a.val <;> by_cases hb : 0 < b.val <;> simp [ha, hb]

theorem sum_cell_cs {n : ℕ} (a b : Fin (n + 1)) (v : ℚ) :
    ∑ c : Fin n × Fin n, (if c.1.castSucc = a ∧ c.2.succ = b then v else 0)
    = if a.val < n ∧ 0 < b.val then v else 0 := by
  rw [Fintype.sum_prod_type]
  have hrow : ∀ i : Fin n, ∑ j : Fin n, (if i.castSucc = a ∧ j.succ = b then v else 0)
      = if i.castSucc = a then (if 0 < b.val then v else 0) else 0 := by
    intro i
    by_cases hP : i.castSucc = a
    · simp only [hP, true_and]; exact sum_succ_eq b v
    · simp [hP]
  simp only [hrow, sum_castSucc_eq]
  by_cases ha : a.val < n <;> by_cases hb : 0 < b.val <;> simp [ha, hb]

/-! ## Assembly structure lemmas -/

/-- The matrix-vector product of the assembled stiffness matrix, organised
triangle by triangle. -/
theorem stiffness_mulVec (n : ℕ) (k : ℚ) (u : VIdx n → ℚ) (p : VIdx n) :
    (stiffness n k).mulVec u p
    = ∑ c : Fin n × Fin n, ∑ t : Fin 2, ∑ a : Fin 3,
        if triVertex c t a = p then (∑ b : Fin 3, elemK n k c t a b * u (triVertex c t b))
        else 0 := by
  unfold Matrix.mulVec Matrix.dotProduct stiffness
  simp only [Finset.sum_mul]
  rw [Finset.sum_comm]
  apply Finset.sum_congr rfl
  intro c _
  rw [Finset.sum_comm]
  apply Finset.sum_congr rfl
  intro t _
  rw [Finset.sum_comm]
  apply Finset.sum_congr rfl
  intro a _
  by_cases hp : triVertex c t a = p
  · rw [if_pos hp]
    simp only [hp, eq_self_iff_true, true_and]
    rw [Finset.sum_comm]
    apply Finset.sum_congr rfl
    intro b _
    rw [Finset.sum_eq_single (triVertex c t b)]
    · simp
    · intro q _ hq; rw [if_neg (fun hc => hq hc.symm), zero_mul]
    · simp
  · rw [if_neg hp]
    apply Finset.sum_eq_zero
    intro q _
    apply Finset.sum_eq_zero
    intro b _
    rw [if_neg (fun hc => hp hc.1), zero_mul]

/-- The quadratic form of the assembled stiffness matrix is the sum of the
per-triangle quadratic forms. -/
theorem stiffness_energy (n : ℕ) (k : ℚ) (u : VIdx n → ℚ) :
    ∑ p : VIdx n, u p * (stiffness n k).mulVec u p
    = ∑ c : Fin n × Fin n, ∑ t : Fin 2, ∑ a : Fin 3,
        u (triVertex c t a) * (∑ b : Fin 3, elemK n k c t a b * u (triVertex c t b)) := by
  simp only [stiffness_mulVec, Finset.mul_sum]
  rw [Finset.sum_comm]
  apply Finset.sum_congr rfl
  intro c _
  rw [Finset.sum_comm]
  apply Finset.sum_congr rfl
  intro t _
  rw [Finset.sum_comm]
  apply Finset.sum_congr rfl
  intro a _
  simp only [mul_ite, mul_zero]
  rw [Finset.sum_ite_eq Finset.univ (triVertex c t a)]
  simp [Finset.mul_sum]

/-! ## Concrete element computations on the structured grid -/

theorem triDet_lower {n : ℕ} (hn : 0 < n) (c : Fin n × Fin n) :
    triDet (vertexCoord n (triVertex c 0 0)) (vertexCoord n (triVertex c 0 1))
      (vertexCoord n (triVertex c 0 2)) = 1 / (n : ℚ) ^ 2 := by
  have hnQ : (n : ℚ) ≠ 0 := Nat.cast_ne_zero.mpr hn.ne'
  simp only [triDet, triVertex, vertexCoord, Fin.coe_castSucc, Fin.val_succ]
  push_cast
  field_simp
  ring

theorem triDet_upper {n : ℕ} (hn : 0 < n) (c : Fin n × Fin n) :
    triDet (vertexCoord n (triVertex c 1 0)) (vertexCoord n (triVertex c 1 1))
      (vertexCoord n (triVertex c 1 2)) = 1 / (n : ℚ) ^ 2 := by
  have hnQ : (n : ℚ) ≠ 0 := Nat.cast_ne_zero.mpr hn.ne'
  simp only [triDet, triVertex, vertexCoord, Fin.coe_castSucc, Fin.val_succ]
  push_cast
  field_simp
  ring

/-- The quadratic form of the lower triangle's local stiffness matrix. -/
theorem cellEnergy_lower {n : ℕ} (hn : 0 < n) (k : ℚ) (c : Fin n × Fin n) (u : VIdx n → ℚ) :
    ∑ a : Fin 3, u (triVertex c 0 a) * (∑ b : Fin 3, elemK n k c 0 a b * u (triVertex c 0 b))
    = k / 2 * ((u (triVertex c 0 1) - u (triVertex c 0 0)) ^ 2
        + (u (triVertex c 0 2) - u (triVertex c 0 1)) ^ 2) := by
  have hnQ : (n : ℚ) ≠ 0 := Nat.cast_ne_zero.mpr hn.ne'
  simp only [Fin.sum_univ_three, elemK, localStiffness, dot2, gradPhi, triArea, triDet,
    triVertex, vertexCoord, Fin.coe_castSucc, Fin.val_succ]
  push_cast
  field_simp
  ring

/-- The quadratic form of the upper triangle's local stiffness matrix. -/
theorem cellEnergy_upper {n : ℕ} (hn : 0 < n) (k : ℚ) (c : Fin n × Fin n) (u : VIdx n → ℚ) :
    ∑ a : Fin 3, u (triVertex c 1 a) * (∑ b : Fin 3, elemK n k c 1 a b * u (triVertex c 1 b))
    = k / 2 * ((u (triVertex c 1 1) - u (triVertex c 1 2)) ^ 2
        + (u (triVertex c 1 2) - u (triVertex c 1 0)) ^ 2) := by
  have hnQ : (n : ℚ) ≠ 0 := Nat.cast_ne_zero.mpr hn.ne'
  simp only [Fin.sum_univ_three, elemK, localStiffness, dot2, gradPhi, triArea, triDet,
    triVertex, vertexCoord, Fin.coe_castSucc, Fin.val_succ]
  push_cast
  field_simp
  ring

/-- Row sums of the lower triangle's local stiffness matrix against the
linear interpolant. -/
theorem interpRow_lower {n : ℕ} (hn : 0 < n) (k L R : ℚ) (c : Fin n × Fin n) (a : Fin 3) :
    ∑ b : Fin 3, elemK n k c 0 a b * interp n L R (triVertex c 0 b)
    = ![-(k * (R - L) / (2 * n)), k * (R - L) / (2 * n), 0] a := by
  have hnQ : (n : ℚ) ≠ 0 := Nat.cast_ne_zero.mpr hn.ne'
  fin_cases a <;>
  · simp only [Fin.sum_univ_three, elemK, localStiffness, dot2, gradPhi, triArea, triDet,
      triVertex, vertexCoord, interp, Fin.coe_castSucc, Fin.val_succ, Matrix.cons_val_zero,
      Matrix.cons_val_one, Matrix.head_cons, Fin.mk_one, Fin.mk_zero, Matrix.cons_val_two,
      Matrix.tail_cons]
    push_cast
    field_simp
    try ring

/-- Row sums of the upper triangle's local stiffness matrix against the
linear interpolant. -/
theorem interpRow_upper {n : ℕ} (hn : 0 < n) (k L R : ℚ) (c : Fin n × Fin n) (a : Fin 3) :
    ∑ b : Fin 3, elemK n k c 1 a b * interp n L R (triVertex c 1 b)
    = ![0, k * (R - L) / (2 * n), -(k * (R - L) / (2 * n))] a := by
  have hnQ : (n : ℚ) ≠ 0 := Nat.cast_ne_zero.mpr hn.ne'
  fin_cases a <;>
  · simp only [Fin.sum_univ_three, elemK, localStiffness, dot2, gradPhi, triArea, triDet,
      triVertex, vertexCoord, interp, Fin.coe_castSucc, Fin.val_succ, Matrix.cons_val_zero,
      Matrix.cons_val_one, Matrix.head_cons, Fin.mk_one, Fin.mk_zero, Matrix.cons_val_two,
      Matrix.tail_cons]
    push_cast
    field_simp
    try ring

/-- A zero source yields a zero load vector. -/
theorem loadVec_zero (n : ℕ) (p : VIdx n) : loadVec n 0 p = 0 := by
  simp [loadVec, elemF, localLoad]

/-! ## Zero energy forces local constancy -/

/-- If the stiffness quadratic form of `u` vanishes, then `u` takes equal
values across every element edge. -/
theorem energy_zero_forces {n : ℕ} (hn : 0 < n) {k : ℚ} (hk : 0 < k) (u : VIdx n → ℚ)
    (h : ∑ p : VIdx n, u p * (stiffness n k).mulVec u p = 0) (c : Fin n × Fin n) :
    u (triVertex c 0 1) = u (triVertex c 0 0) ∧ u (triVertex c 0 2) = u (triVertex c 0 1)
    ∧ u (triVertex c 1 1) = u (triVertex c 1 2) ∧ u (triVertex c 1 2) = u (triVertex c 1 0) := by
  rw [stiffness_energy] at h
  have hterm : ∀ d : Fin n × Fin n, ∑ t : Fin 2, ∑ a : Fin 3,
      u (triVertex d t a) * (∑ b : Fin 3, elemK n k d t a b * u (triVertex d t b))
      = k / 2 * ((u (triVertex d 0 1) - u (triVertex d 0 0)) ^ 2
          + (u (triVertex d 0 2) - u (triVertex d 0 1)) ^ 2)
        + k / 2 * ((u (triVertex d 1 1) - u (triVertex d 1 2)) ^ 2
          + (u (triVertex d 1 2) - u (triVertex d 1 0)) ^ 2) := by
    intro d
    rw [Fin.sum_univ_two, cellEnergy_lower hn k d u, cellEnergy_upper hn k d u]
  simp only [hterm] at h
  have hnonneg : ∀ d ∈ Finset.univ (α := Fin n × Fin n),
      0 ≤ k / 2 * ((u (triVertex d 0 1) - u (triVertex d 0 0)) ^ 2
          + (u (triVertex d 0 2) - u (triVertex d 0 1)) ^ 2)
        + k / 2 * ((u (triVertex d 1 1) - u (triVertex d 1 2)) ^ 2
          + (u (triVertex d 1 2) - u (triVertex d 1 0)) ^ 2) := by
    intro d _
    have h1 := sq_nonneg (u (triVertex d 0 1) - u (triVertex d 0 0))
    have h2 := sq_nonneg (u (triVertex d 0 2) - u (triVertex d 0 1))
    have h3 := sq_nonneg (u (triVertex d 1 1) - u (triVertex d 1 2))
    have h4 := sq_nonneg (u (triVertex d 1 2) - u (triVertex d 1 0))
    positivity
  have hc := (Finset.sum_eq_zero_iff_of_nonneg hnonneg).mp h c (Finset.mem_univ c)
  have h1 := sq_nonneg (u (triVertex c 0 1) - u (triVertex c 0 0))
  have h2 := sq_nonneg (u (triVertex c 0 2) - u (triVertex c 0 1))
  have h3 := sq_nonneg (u (triVertex c 1 1) - u (triVertex c 1 2))
  have h4 := sq_nonneg (u (triVertex c 1 2) - u (triVertex c 1 0))
  have e1 : (u (triVertex c 0 1) - u (triVertex c 0 0)) ^ 2 = 0 := by nlinarith
  have e2 : (u (triVertex c 0 2) - u (triVertex c 0 1)) ^ 2 = 0 := by nlinarith
  have e3 : (u (triVertex c 1 1) - u (triVertex c 1 2)) ^ 2 = 0 := by nlinarith
  have e4 : (u (triVertex c 1 2) - u (triVertex c 1 0)) ^ 2 = 0 := by nlinarith
  exact ⟨sub_eq_zero.mp (pow_eq_zero_iff two_ne_zero |>.mp e1),
    sub_eq_zero.mp (pow_eq_zero_iff two_ne_zero |>.mp e2),
    sub_eq_zero.mp (pow_eq_zero_iff two_ne_zero |>.mp e3),
    sub_eq_zero.mp (pow_eq_zero_iff two_ne_zero |>.mp e4)⟩

/-- A function equal across every element edge is constant on the grid. -/
theorem grid_constant {n : ℕ} (hn : 0 < n) (u : VIdx n → ℚ)
    (hH : ∀ c : Fin n × Fin n, u (triVertex c 0 1) = u (triVertex c 0 0))
    (hV1 : ∀ c : Fin n × Fin n, u (triVertex c 0 2) = u (triVertex c 0 1))
    (hV2 : ∀ c : Fin n × Fin n, u (triVertex c 1 2) = u (triVertex c 1 0))
    (p : VIdx n) : u p = u (⟨0, Nat.succ_pos n⟩, ⟨0, Nat.succ_pos n⟩) := by
  have hrow0 : ∀ i, i ≤ n → ∀ (hi : i < n + 1),
      u (⟨i, hi⟩, ⟨0, Nat.succ_pos n⟩) = u (⟨0, Nat.succ_pos n⟩, ⟨0, Nat.succ_pos n⟩) := by
    intro i
    induction i with
    | zero => intro _ _; rfl
    | succ i ih =>
      intro hle hi
      have hcell := hH (⟨i, by omega⟩, ⟨0, hn⟩)
      simp only [triVertex] at hcell
      have hstep : u (⟨i + 1, hi⟩, ⟨0, Nat.succ_pos n⟩) = u (⟨i, by omega⟩, ⟨0, Nat.succ_pos n⟩) :=
        hcell
      rw [hstep]
      exact ih (by omega) (by omega)
  have hcol : ∀ j, j ≤ n → ∀ i, i ≤ n → ∀ (hi : i < n + 1) (hj : j < n + 1),
      u (⟨i, hi⟩, ⟨j, hj⟩) = u (⟨i, hi⟩, ⟨0, Nat.succ_pos n⟩) := by
    intro j
    induction j with
    | zero => intro _ i _ _ _; rfl
    | succ j ih =>
      intro hle i hile hi hj
      by_cases hint : i < n
      · have hcell := hV2 (⟨i, hint⟩, ⟨j, by omega⟩)
        simp only [triVertex] at hcell
        have hstep : u (⟨i, hi⟩, ⟨j + 1, hj⟩) = u (⟨i, hi⟩, ⟨j, by omega⟩) := hcell
        rw [hstep]
        exact ih (by omega) i hile hi (by omega)
      · have hieq : i = n := by omega
        have hcell := hV1 (⟨i - 1, by omega⟩, ⟨j, by omega⟩)
        simp only [triVertex] at hcell
        have hsucc : (⟨i - 1, by omega⟩ : Fin n).succ = (⟨i, hi⟩ : Fin (n + 1)) := by
          rw [Fin.ext_iff]
          simp
          omega
        rw [hsucc] at hcell
        have hstep : u (⟨i, hi⟩, ⟨j + 1, hj⟩) = u (⟨i, hi⟩, ⟨j, by omega⟩) := hcell
        rw [hstep]
        exact ih (by omega) i hile hi (by omega)
  obtain ⟨⟨i, hi⟩, ⟨j, hj⟩⟩ := p
  exact (hcol j (by omega) i (by omega) hi hj).trans (hrow0 i (by omega) hi)

/-! ## Boundary-condition elimination lemmas -/

theorem applyBCMatrix_mulVec_constrained {n : ℕ} (A : Matrix (VIdx n) (VIdx n) ℚ)
    (constrained : VIdx n → Prop) [DecidablePred constrained] (u : VIdx n → ℚ)
    {p : VIdx n} (hp : constrained p) :
    (applyBCMatrix n A constrained).mulVec u p = u p := by
  unfold Matrix.mulVec Matrix.dotProduct applyBCMatrix
  simp only [if_pos hp, ite_mul, one_mul, zero_mul]
  rw [Finset.sum_ite_eq' Finset.univ p u]
  simp

theorem applyBCMatrix_mulVec_free {n : ℕ} (A : Matrix (VIdx n) (VIdx n) ℚ)
    (constrained : VIdx n → Prop) [DecidablePred constrained] (u : VIdx n → ℚ)
    {p : VIdx n} (hp : ¬constrained p) :
    (applyBCMatrix n A constrained).mulVec u p
    = A.mulVec u p - ∑ q : VIdx n, (if constrained q then A p q * u q else 0) := by
  unfold Matrix.mulVec Matrix.dotProduct applyBCMatrix
  rw [← Finset.sum_sub_distrib]
  apply Finset.sum_congr rfl
  intro q _
  simp only [if_neg hp]
  by_cases hq : constrained q
  · simp [hq]
  · simp [hq]

/-! ## Coordinates of grid DOFs -/

theorem vertexCoord_fst_eq_zero {n : ℕ} (hn : 0 < n) (p : VIdx n) :
    (vertexCoord n p).1 = 0 ↔ p.1.val = 0 := by
  have hnQ : (n : ℚ) ≠ 0 := Nat.cast_ne_zero.mpr hn.ne'
  rw [vertexCoord]
  simp only [div_eq_zero_iff]
  constructor
  · rintro (h | h)
    · exact_mod_cast h
    · exact absurd h hnQ
  · intro h
    left
    exact_mod_cast h

theorem vertexCoord_fst_eq_one {n : ℕ} (hn : 0 < n) (p : VIdx n) :
    (vertexCoord n p).1 = 1 ↔ p.1.val = n := by
  have hnQ : (n : ℚ) ≠ 0 := Nat.cast_ne_zero.mpr hn.ne'
  rw [vertexCoord, div_eq_one_iff_eq hnQ]
  exact_mod_cast Iff.rfl

theorem bcConstrained_grid {n : ℕ} (hn : 0 < n) (p : VIdx n) :
    bcConstrained n (vertexCoord n) p ↔ p.1.val = 0 ∨ p.1.val = n := by
  rw [bcConstrained, vertexCoord_fst_eq_zero hn, vertexCoord_fst_eq_one hn]

/-! ## Kernel of the constrained system -/

/-- The constrained stiffness matrix has trivial kernel: the energy of a
kernel vector vanishes, so it is grid-constant, and it vanishes on the
boundary. -/
theorem constrained_kernel_trivial {n : ℕ} (hn : 0 < n) {k : ℚ} (hk : 0 < k)
    (u : VIdx n → ℚ)
    (h : (applyBCMatrix n (stiffness n k) (bcConstrained n (vertexCoord n))).mulVec u = 0) :
    u = 0 := by
  set constrained := bcConstrained n (vertexCoord n) with hconstrained
  have hbound : ∀ p, constrained p → u p = 0 := by
    intro p hp
    have := congr_fun h p
    rwa [applyBCMatrix_mulVec_constrained _ _ _ hp, Pi.zero_apply] at this
  have hfree : ∀ p, ¬constrained p → (stiffness n k).mulVec u p = 0 := by
    intro p hp
    have := congr_fun h p
    rw [applyBCMatrix_mulVec_free _ _ _ hp, Pi.zero_apply, sub_eq_zero] at this
    rw [this]
    apply Finset.sum_eq_zero
    intro q _
    by_cases hq : constrained q
    · rw [if_pos hq, hbound q hq, mul_zero]
    · rw [if_neg hq]
  have henergy : ∑ p : VIdx n, u p * (stiffness n k).mulVec u p = 0 := by
    apply Finset.sum_eq_zero
    intro p _
    by_cases hp : constrained p
    · rw [hbound p hp, zero_mul]
    · rw [hfree p hp, mul_zero]
  have hforce := energy_zero_forces hn hk u henergy
  have hconst := grid_constant hn u (fun c => (hforce c).1)
    (fun c => (hforce c).2.1) (fun c => (hforce c).2.2.2)
  have hzero : u (⟨0, Nat.succ_pos n⟩, ⟨0, Nat.succ_pos n⟩) = 0 := by
    apply hbound
    rw [hconstrained, bcConstrained_grid hn]
    left
    rfl
  funext p
  rw [Pi.zero_apply, hconst p, hzero]

/-! ## Linear solver correctness -/

/-- What the direct solver returns solves the system. -/
theorem solveLinearSystem_sound {ι : Type} [Fintype ι] [DecidableEq ι]
    (A : Matrix ι ι ℚ) (b : ι → ℚ) (u : ι → ℚ)
    (h : solveLinearSystem A b = some u) : A.mulVec u = b := by
  unfold solveLinearSystem at h
  split at h
  · exact absurd h (by simp)
  · rename_i hd
    have hu : u = fun i => (A.updateColumn i b).det / A.det := by
      simpa using h.symm
    subst hu
    have hc : A.mulVec (Matrix.cramer A b) = A.det • b := Matrix.mulVec_cramer A b
    have hfun : (fun i => (A.updateColumn i b).det / A.det)
        = (A.det)⁻¹ • (Matrix.cramer A b) := by
      funext i
      simp [Matrix.cramer_apply, div_eq_inv_mul, Pi.smul_apply]
    rw [hfun, Matrix.mulVec_smul, hc, smul_smul, inv_mul_cancel₀ hd, one_smul]

/-- The direct solver succeeds on any matrix with trivial kernel. -/
theorem solveLinearSystem_isSome {ι : Type} [Fintype ι] [DecidableEq ι]
    (A : Matrix ι ι ℚ) (b : ι → ℚ) (hker : ∀ v, A.mulVec v = 0 → v = 0) :
    ∃ u, solveLinearSystem A b = some u := by
  have hd : A.det ≠ 0 := by
    intro h0
    obtain ⟨v, hv, hmv⟩ := Matrix.exists_mulVec_eq_zero_iff.mpr h0
    exact hv (hker v hmv)
  exact ⟨_, by unfold solveLinearSystem; rw [if_neg hd]⟩

/-! ## The interpolant solves the constrained system for a zero source -/

/-- On boundary DOFs the interpolant agrees with the prescribed values. -/
theorem interp_eq_bcValue {n : ℕ} (hn : 0 < n) (L R : ℚ) {q : VIdx n}
    (hq : bcConstrained n (vertexCoord n) q) :
    interp n L R q = bcValue n (vertexCoord n) L R q := by
  have hnQ : (n : ℚ) ≠ 0 := Nat.cast_ne_zero.mpr hn.ne'
  rw [bcValue]
  by_cases h1 : (vertexCoord n q).1 = 1
  · rw [if_pos h1]
    have := (vertexCoord_fst_eq_one hn q).mp h1
    rw [interp, this]
    field_simp
  · rw [if_neg h1]
    have h0 : (vertexCoord n q).1 = 0 := hq.resolve_right h1
    have := (vertexCoord_fst_eq_zero hn q).mp h0
    rw [interp, this]
    simp

/-- The assembled stiffness operator annihilates the linear interpolant at
every interior (non-boundary-column) DOF. -/
theorem stiffness_mulVec_interp_free {n : ℕ} (hn : 0 < n) (k L R : ℚ) {p : VIdx n}
    (h0 : 0 < p.1.val) (h1 : p.1.val < n) :
    (stiffness n k).mulVec (interp n L R) p = 0 := by
  rw [stiffness_mulVec]
  have hcell : ∀ c : Fin n × Fin n,
      (∑ t : Fin 2, ∑ a : Fin 3, if triVertex c t a = p
        then (∑ b : Fin 3, elemK n k c t a b * interp n L R (triVertex c t b)) else 0)
      = ((if c.1.castSucc = p.1 ∧ c.2.castSucc = p.2 then -(k * (R - L) / (2 * n)) else 0)
        + (if c.1.succ = p.1 ∧ c.2.castSucc = p.2 then k * (R - L) / (2 * n) else 0))
        + ((if c.1.succ = p.1 ∧ c.2.succ = p.2 then k * (R - L) / (2 * n) else 0)
        + (if c.1.castSucc = p.1 ∧ c.2.succ = p.2 then -(k * (R - L) / (2 * n)) else 0)) := by
    intro c
    have hlow := interpRow_lower hn k L R c
    have hup := interpRow_upper hn k L R c
    rw [Fin.sum_univ_two]
    simp only [hlow, hup]
    simp only [Fin.sum_univ_three]
    simp only [triVertex, Prod.ext_iff, Matrix.cons_val_zero, Matrix.cons_val_one,
      Matrix.head_cons, Matrix.cons_val_two, Matrix.tail_cons, ite_self, add_zero, zero_add]
  simp only [hcell]
  rw [Finset.sum_add_distrib, Finset.sum_add_distrib, Finset.sum_add_distrib,
    sum_cell_cc, sum_cell_sc, sum_cell_ss, sum_cell_cs]
  simp only [h0, h1, true_and]
  split_ifs <;> ring

/-- The interpolant solves the boundary-constrained system with zero load. -/
theorem interp_solves_constrained {n : ℕ} (hn : 0 < n) (k L R : ℚ) :
    (applyBCMatrix n (stiffness n k) (bcConstrained n (vertexCoord n))).mulVec (interp n L R)
    = applyBCVector n (stiffness n k) (loadVec n 0) (bcConstrained n (vertexCoord n))
        (bcValue n (vertexCoord n) L R) := by
  funext p
  by_cases hp : bcConstrained n (vertexCoord n) p
  · rw [applyBCMatrix_mulVec_constrained _ _ _ hp]
    rw [show applyBCVector n (stiffness n k) (loadVec n 0) (bcConstrained n (vertexCoord n))
        (bcValue n (vertexCoord n) L R) p = bcValue n (vertexCoord n) L R p
      from if_pos hp]
    exact interp_eq_bcValue hn L R hp
  · rw [applyBCMatrix_mulVec_free _ _ _ hp]
    rw [show applyBCVector n (stiffness n k) (loadVec n 0) (bcConstrained n (vertexCoord n))
        (bcValue n (vertexCoord n) L R) p
      = loadVec n 0 p - ∑ q : VIdx n, (if bcConstrained n (vertexCoord n) q
          then stiffness n k p q * bcValue n (vertexCoord n) L R q else 0)
      from if_neg hp]
    rw [loadVec_zero]
    have hfree : 0 < p.1.val ∧ p.1.val < n := by
      rw [bcConstrained_grid hn] at hp
      push_neg at hp
      obtain ⟨hne0, hnen⟩ := hp
      exact ⟨Nat.pos_of_ne_zero hne0, lt_of_le_of_ne (Nat.lt_succ_iff.mp p.1.isLt) hnen⟩
    rw [stiffness_mulVec_interp_free hn k L R hfree.1 hfree.2]
    congr 1
    apply Finset.sum_congr rfl
    intro q _
    by_cases hq : bcConstrained n (vertexCoord n) q
    · rw [if_pos hq, if_pos hq, interp_eq_bcValue hn L R hq]
    · rw [if_neg hq, if_neg hq]

/-- The constrained system has at most one solution. -/
theorem constrained_solution_unique {n : ℕ} (hn : 0 < n) {k : ℚ} (hk : 0 < k)
    (be : VIdx n → ℚ) (u w : VIdx n → ℚ)
    (hu : (applyBCMatrix n (stiffness n k) (bcConstrained n (vertexCoord n))).mulVec u = be)
    (hw : (applyBCMatrix n (stiffness n k) (bcConstrained n (vertexCoord n))).mulVec w = be) :
    u = w := by
  have hdiff : (applyBCMatrix n (stiffness n k) (bcConstrained n (vertexCoord n))).mulVec
      (u - w) = 0 := by
    rw [Matrix.mulVec_sub, hu, hw, sub_self]
  have := constrained_kernel_trivial hn hk (u - w) hdiff
  rwa [sub_eq_zero] at this

/-! ## The façade succeeds on validated parameters -/

/-- Both edge predicates match at least one grid DOF. -/
theorem grid_has_boundary_dofs {n : ℕ} (hn : 0 < n) :
    (∃ p : VIdx n, (vertexCoord n p).1 = 0) ∧ (∃ p : VIdx n, (vertexCoord n p).1 = 1) := by
  have hnQ : (n : ℚ) ≠ 0 := Nat.cast_ne_zero.mpr hn.ne'
  constructor
  · exact ⟨(⟨0, Nat.succ_pos n⟩, ⟨0, Nat.succ_pos n⟩), by simp [vertexCoord]⟩
  · refine ⟨(Fin.last n, ⟨0, Nat.succ_pos n⟩), ?_⟩
    simp [vertexCoord, Fin.val_last]
    field_simp

/-- No triangle of the structured grid is degenerate. -/
theorem grid_nondegenerate {n : ℕ} (hn : 0 < n) :
    ¬∃ (c : Fin n × Fin n) (t : Fin 2),
      triDet (vertexCoord n (triVertex c t 0)) (vertexCoord n (triVertex c t 1))
        (vertexCoord n (triVertex c t 2)) = 0 := by
  have hnQ : (n : ℚ) ≠ 0 := Nat.cast_ne_zero.mpr hn.ne'
  rintro ⟨c, t, hdeg⟩
  fin_cases t
  · simp only [Fin.zero_eta] at hdeg
    rw [triDet_lower hn c] at hdeg
    exact absurd hdeg (by positivity)
  · simp only [Fin.mk_one] at hdeg
    rw [triDet_upper hn c] at hdeg
    exact absurd hdeg (by positivity)

/-- Master theorem: on any instance whose parameters are valid, `solve()`
succeeds, stores the mesh and solution on the instance, returns them, and
the returned solution solves the boundary-constrained linear system. -/
theorem solveState_ok (s : SolverState) (hk : 0 < s.params.k)
    (hn : 4 ≤ s.params.mesh_resolution) :
    ∃ u : VIdx s.params.mesh_resolution.toNat → ℚ,
      (applyBCMatrix s.params.mesh_resolution.toNat
          (stiffness s.params.mesh_resolution.toNat s.params.k)
          (bcConstrained s.params.mesh_resolution.toNat
            (vertexCoord s.params.mesh_resolution.toNat))).mulVec u
        = applyBCVector s.params.mesh_resolution.toNat
            (stiffness s.params.mesh_resolution.toNat s.params.k)
            (loadVec s.params.mesh_resolution.toNat s.params.f)
            (bcConstrained s.params.mesh_resolution.toNat
              (vertexCoord s.params.mesh_resolution.toNat))
            (bcValue s.params.mesh_resolution.toNat
              (vertexCoord s.params.mesh_resolution.toNat)
              s.params.left_temp s.params.right_temp)
      ∧ solveState s = .ok
          (⟨s.params, some (createMesh s.params.mesh_resolution.toNat),
             some (solutionList s.params.mesh_resolution.toNat u)⟩,
           createMesh s.params.mesh_resolution.toNat,
           solutionList s.params.mesh_resolution.toNat u) := by
  have hval : validateParameters s.params = none := by
    unfold validateParameters
    rw [if_neg (not_le.mpr hk), if_neg (not_lt.mpr hn)]
  have hn0 : 0 < s.params.mesh_resolution.toNat := by omega
  have hker : ∀ v : VIdx s.params.mesh_resolution.toNat → ℚ,
      (applyBCMatrix s.params.mesh_resolution.toNat
        (stiffness s.params.mesh_resolution.toNat s.params.k)
        (bcConstrained s.params.mesh_resolution.toNat
          (vertexCoord s.params.mesh_resolution.toNat))).mulVec v = 0 → v = 0 :=
    fun v hv => constrained_kernel_trivial hn0 hk v hv
  obtain ⟨u, hu⟩ := solveLinearSystem_isSome _ _ hker
  refine ⟨u, solveLinearSystem_sound _ _ _ hu, ?_⟩
  unfold solveState
  rw [hval]
  simp only
  rw [if_neg (grid_nondegenerate hn0)]
  unfold applyBoundaryConditions
  rw [if_pos (grid_has_boundary_dofs hn0)]
  simp only
  rw [hu]

/-- The master theorem `solveState_ok` specialised to a freshly constructed instance with a
natural-number resolution. -/
theorem solveState_nat_ok (k f L R : ℚ) (n : ℕ) (hk : 0 < k) (hn : 4 ≤ n) :
    ∃ u : VIdx n → ℚ,
      (applyBCMatrix n (stiffness n k) (bcConstrained n (vertexCoord n))).mulVec u
        = applyBCVector n (stiffness n k) (loadVec n f) (bcConstrained n (vertexCoord n))
            (bcValue n (vertexCoord n) L R)
      ∧ solveState (mkSolver k f L R (n : ℤ)) = .ok
          (⟨⟨k, f, L, R, (n : ℤ)⟩, some (createMesh n), some (solutionList n u)⟩,
           createMesh n, solutionList n u) :=
  solveState_ok (mkSolver k f L R (n : ℤ)) hk (by simp [mkSolver]; exact_mod_cast hn)

theorem solutionList_length (n : ℕ) (u : VIdx n → ℚ) :
    (solutionList n u).length = (n + 1) * (n + 1) := by
  simp [solutionList]
  ring

theorem solutionList_getElem (n : ℕ) (u : VIdx n → ℚ) (v : ℕ) (hv : v < (n + 1) * (n + 1)) :
    (solutionList n u)[v]! = u (unflatten n ⟨v, hv⟩) := by
  rw [solutionList, getElem!_pos _ _ (by simpa using hv), List.getElem_ofFn]

theorem meshVertices_getBang (n v : ℕ) (hv : v < (n + 1) * (n + 1)) :
    (meshVertices n)[v]! = ((↑(v % (n + 1)) : ℚ) / n, (↑(v / (n + 1)) : ℚ) / n) := by
  rw [getElem!_pos _ _ (by rw [meshVertices_length]; exact hv)]
  exact meshVertices_getElem n v hv (by rw [meshVertices_length]; exact hv)

theorem vertexCoord_unflatten (n v : ℕ) (hv : v < (n + 1) * (n + 1)) :
    vertexCoord n (unflatten n ⟨v, hv⟩)
    = ((↑(v % (n + 1)) : ℚ) / n, (↑(v / (n + 1)) : ℚ) / n) := rfl

/-- The solved values on constrained DOFs equal the prescribed values. -/
theorem solved_bc_values {n : ℕ} (k f L R : ℚ) (u : VIdx n → ℚ)
    (hsol : (applyBCMatrix n (stiffness n k) (bcConstrained n (vertexCoord n))).mulVec u
      = applyBCVector n (stiffness n k) (loadVec n f) (bcConstrained n (vertexCoord n))
          (bcValue n (vertexCoord n) L R))
    {p : VIdx n} (hp : bcConstrained n (vertexCoord n) p) :
    u p = bcValue n (vertexCoord n) L R p := by
  have := congr_fun hsol p
  rw [applyBCMatrix_mulVec_constrained _ _ _ hp] at this
  rw [this]
  exact if_pos hp

/-- Validation failure leaves the instance untouched: the two invalid
parameter cases of `_validate_parameters`. -/
theorem solveState_invalid (k f L R : ℚ) (nz : ℤ) :
    (k ≤ 0 → solveState (mkSolver k f L R nz)
      = .error (.invalidParameter "Thermal conductivity must be positive",
          mkSolver k f L R nz))
    ∧ (¬k ≤ 0 → nz < 4 → solveState (mkSolver k f L R nz)
      = .error (.invalidParameter "Mesh resolution must be at least 4",
          mkSolver k f L R nz)) := by
  constructor
  · intro hk
    unfold solveState validateParameters
    simp [mkSolver, hk]
  · intro hk hnz
    unfold solveState validateParameters
    simp [mkSolver, hk, hnz]

/-! ## The claims -/

/-- C1: for every valid parameter set (conductivity `k > 0`, resolution
`≥ 4`, any source and boundary temperatures), `solve()` succeeds and
returns a `(mesh, solution)` pair in which the solution vector's length
equals the mesh's vertex count. -/
theorem C1_solution_length_matches_vertex_count (k f L R : ℚ) (n : ℕ)
    (hk : 0 < k) (hn : 4 ≤ n) :
    ∃ (st : SolverState) (m : MeshData) (u : List ℚ),
      solveState (mkSolver k f L R (n : ℤ)) = .ok (st, m, u)
      ∧ u.length = m.vertices.length := by
  obtain ⟨u, hsol, hok⟩ := solveState_nat_ok k f L R n hk hn
  refine ⟨_, _, _, hok, ?_⟩
  show (solutionList n u).length = (meshVertices n).length
  rw [solutionList_length, meshVertices_length]

theorem C1_witness :
    (0 : ℚ) < 1 ∧ 4 ≤ 8 ∧ ∃ (st : SolverState) (m : MeshData) (u : List ℚ),
      solveState (mkSolver 1 0 100 0 ((8 : ℕ) : ℤ)) = .ok (st, m, u)
      ∧ u.length = m.vertices.length :=
  ⟨by norm_num, by norm_num,
    C1_solution_length_matches_vertex_count 1 0 100 0 8 (by norm_num) (by norm_num)⟩

/-- C2: for every resolution `n ≥ 4`, the mesh produced by `solve()` has
`(n+1)²` vertices and `2n²` triangles; at resolution 8 that is 81 vertices
and 128 triangles (witness). -/
theorem C2_mesh_counts (k f L R : ℚ) (n : ℕ) (hk : 0 < k) (hn : 4 ≤ n) :
    ∃ (st : SolverState) (m : MeshData) (u : List ℚ),
      solveState (mkSolver k f L R (n : ℤ)) = .ok (st, m, u)
      ∧ m.vertices.length = (n + 1) ^ 2 ∧ m.triangles.length = 2 * n ^ 2 := by
  obtain ⟨u, hsol, hok⟩ := solveState_nat_ok k f L R n hk hn
  refine ⟨_, _, _, hok, ?_, ?_⟩
  · show (meshVertices n).length = (n + 1) ^ 2
    rw [meshVertices_length]; ring
  · exact meshTriangles_length n

theorem C2_witness :
    (0 : ℚ) < 1 ∧ 4 ≤ 8 ∧ ∃ (st : SolverState) (m : MeshData) (u : List ℚ),
      solveState (mkSolver 1 0 100 0 ((8 : ℕ) : ℤ)) = .ok (st, m, u)
      ∧ m.vertices.length = 81 ∧ m.triangles.length = 128 := by
  refine ⟨by norm_num, by norm_num, ?_⟩
  obtain ⟨st, m, u, hok, hv, ht⟩ := C2_mesh_counts 1 0 100 0 8 (by norm_num) (by norm_num)
  exact ⟨st, m, u, hok, by rw [hv]; norm_num, by rw [ht]; norm_num⟩

/-- C5: conductivity `≤ 0` or resolution `< 4` (each independently,
whatever the other parameters) makes `solve()` fail with the
invalid-parameter error before any computation, retaining no mesh or
solution. -/
theorem C5_invalid_parameter_rejection (k f L R : ℚ) (nz : ℤ)
    (h : k ≤ 0 ∨ nz < 4) :
    ∃ msg, solveState (mkSolver k f L R nz)
        = .error (.invalidParameter msg, mkSolver k f L R nz)
      ∧ (mkSolver k f L R nz).mesh = none
      ∧ (mkSolver k f L R nz).solution = none := by
  by_cases hk : k ≤ 0
  · exact ⟨_, (solveState_invalid k f L R nz).1 hk, rfl, rfl⟩
  · rcases h with hk' | hn
    · exact absurd hk' hk
    · exact ⟨_, (solveState_invalid k f L R nz).2 hk hn, rfl, rfl⟩

theorem C5_witness :
    ((-1 : ℚ) ≤ 0 ∨ (32 : ℤ) < 4)
    ∧ ∃ msg, solveState (mkSolver (-1) 0 100 0 32)
        = .error (.invalidParameter msg, mkSolver (-1) 0 100 0 32)
      ∧ (mkSolver (-1 : ℚ) 0 100 0 32).mesh = none
      ∧ (mkSolver (-1 : ℚ) 0 100 0 32).solution = none :=
  ⟨Or.inl (by norm_num),
    C5_invalid_parameter_rejection (-1) 0 100 0 32 (Or.inl (by norm_num))⟩

/-- C6: boundary-condition enforcement fails with `NoBoundaryDofsFound`
whenever either edge predicate matches zero DOFs of the mesh it is given,
so the pipeline never silently proceeds with an unconstrained edge. -/
theorem C6_no_boundary_dofs_error (n : ℕ) (coords : VIdx n → ℚ × ℚ)
    (A : Matrix (VIdx n) (VIdx n) ℚ) (b : VIdx n → ℚ) (L R : ℚ)
    (h : (¬∃ p : VIdx n, (coords p).1 = 0) ∨ (¬∃ p : VIdx n, (coords p).1 = 1)) :
    applyBoundaryConditions n coords A b L R = .error .noBoundaryDofsFound := by
  unfold applyBoundaryConditions
  rw [if_neg]
  tauto

theorem C6_witness :
    ((¬∃ p : VIdx 0, ((fun _ : VIdx 0 => ((1 : ℚ) / 2, (1 : ℚ) / 2)) p).1 = 0)
      ∨ (¬∃ p : VIdx 0, ((fun _ : VIdx 0 => ((1 : ℚ) / 2, (1 : ℚ) / 2)) p).1 = 1))
    ∧ applyBoundaryConditions 0 (fun _ => ((1 : ℚ) / 2, (1 : ℚ) / 2)) 0 0 100 0
      = .error .noBoundaryDofsFound := by
  have h : (¬∃ p : VIdx 0, ((fun _ : VIdx 0 => ((1 : ℚ) / 2, (1 : ℚ) / 2)) p).1 = 0)
      ∨ (¬∃ p : VIdx 0, ((fun _ : VIdx 0 => ((1 : ℚ) / 2, (1 : ℚ) / 2)) p).1 = 1) := by
    left
    rintro ⟨p, hp⟩
    norm_num at hp
  exact ⟨h, C6_no_boundary_dofs_error 0 _ 0 0 100 0 h⟩

/-- C10: constructing a solver never fails and never validates — the
constructor just stores the parameters with empty mesh/solution — and
validation at `solve()` time reads only the conductivity and the
resolution, so the source and boundary temperatures are accepted
unconditionally. -/
theorem C10_constructor_total_validation_scope (k f L R : ℚ) (nz : ℤ) (f' L' R' : ℚ) :
    mkSolver k f L R nz = ⟨⟨k, f, L, R, nz⟩, none, none⟩
    ∧ validateParameters ⟨k, f, L, R, nz⟩ = validateParameters ⟨k, f', L', R', nz⟩ :=
  ⟨rfl, rfl⟩

/-- C3: with a zero source and any positive conductivity, the solution of
`solve()` is exactly the linear interpolation
`left_temp + x · (right_temp - left_temp)` at every vertex, independent of
the vertex's y-coordinate. -/
theorem C3_solution_is_linear_interpolation (k L R : ℚ) (n : ℕ)
    (hk : 0 < k) (hn : 4 ≤ n) :
    ∃ (st : SolverState) (m : MeshData) (u : List ℚ),
      solveState (mkSolver k 0 L R (n : ℤ)) = .ok (st, m, u)
      ∧ u.length = (n + 1) * (n + 1) ∧ m.vertices.length = (n + 1) * (n + 1)
      ∧ ∀ v, v < (n + 1) * (n + 1) →
          u[v]! = L + (m.vertices[v]!).1 * (R - L) := by
  have hn0 : 0 < n := by omega
  obtain ⟨w, hsol, hok⟩ := solveState_nat_ok k 0 L R n hk hn
  have hw : w = interp n L R :=
    constrained_solution_unique hn0 hk _ w (interp n L R) hsol
      (interp_solves_constrained hn0 k L R)
  refine ⟨_, _, _, hok, solutionList_length n w, meshVertices_length n, ?_⟩
  intro v hv
  rw [solutionList_getElem n w v hv, hw]
  show interp n L R (unflatten n ⟨v, hv⟩) = L + ((meshVertices n)[v]!).1 * (R - L)
  rw [meshVertices_getBang n v hv, interp]
  simp [unflatten]

theorem C3_witness :
    (0 : ℚ) < 1 ∧ 4 ≤ 8 ∧ ∃ (st : SolverState) (m : MeshData) (u : List ℚ),
      solveState (mkSolver 1 0 100 0 ((8 : ℕ) : ℤ)) = .ok (st, m, u)
      ∧ u.length = 81 ∧ m.vertices.length = 81
      ∧ (m.vertices[4]!).1 = 1 / 2 ∧ u[4]! = 50 := by
  refine ⟨by norm_num, by norm_num, ?_⟩
  obtain ⟨st, m, u, hok, hul, hml, hval⟩ :=
    C3_solution_is_linear_interpolation 1 100 0 8 (by norm_num) (by norm_num)
  obtain ⟨w, -, hok'⟩ := solveState_nat_ok 1 0 100 0 8 (by norm_num) (by norm_num)
  rw [hok'] at hok
  obtain ⟨-, hm, -⟩ : _ ∧ _ ∧ _ := by simpa using hok
  have hx : (m.vertices[4]!).1 = 1 / 2 := by
    rw [← hm]
    show ((meshVertices 8)[4]!).1 = 1 / 2
    rw [meshVertices_getBang 8 4 (by norm_num)]
    norm_num
  refine ⟨st, m, u, hok'.trans (by rw [hok]), by rw [hul], by rw [hml], hx, ?_⟩
  rw [hval 4 (by norm_num), hx]
  norm_num

/-- C4: in the solution of `solve()`, every DOF whose vertex lies on the
left edge (`x = 0`) has the left boundary temperature and every DOF on the
right edge (`x = 1`) has the right boundary temperature. -/
theorem C4_boundary_values_enforced (k f L R : ℚ) (n : ℕ)
    (hk : 0 < k) (hn : 4 ≤ n) :
    ∃ (st : SolverState) (m : MeshData) (u : List ℚ),
      solveState (mkSolver k f L R (n : ℤ)) = .ok (st, m, u)
      ∧ u.length = (n + 1) * (n + 1) ∧ m.vertices.length = (n + 1) * (n + 1)
      ∧ ∀ v, v < (n + 1) * (n + 1) →
          ((m.vertices[v]!).1 = 0 → u[v]! = L) ∧ ((m.vertices[v]!).1 = 1 → u[v]! = R) := by
  have hn0 : 0 < n := by omega
  obtain ⟨w, hsol, hok⟩ := solveState_nat_ok k f L R n hk hn
  refine ⟨_, _, _, hok, solutionList_length n w, meshVertices_length n, ?_⟩
  intro v hv
  have hub := solutionList_getElem n w v hv
  have hco : (vertexCoord n (unflatten n ⟨v, hv⟩)).1 = ((meshVertices n)[v]!).1 := by
    rw [meshVertices_getBang n v hv, vertexCoord_unflatten n v hv]
  constructor
  · intro h0
    have hx : (vertexCoord n (unflatten n ⟨v, hv⟩)).1 = 0 := by
      rw [hco]; exact h0
    have hcon : bcConstrained n (vertexCoord n) (unflatten n ⟨v, hv⟩) := Or.inl hx
    show (solutionList n w)[v]! = L
    rw [hub, solved_bc_values k f L R w hsol hcon, bcValue, if_neg]
    rw [hx]
    norm_num
  · intro h1
    have hx : (vertexCoord n (unflatten n ⟨v, hv⟩)).1 = 1 := by
      rw [hco]; exact h1
    have hcon : bcConstrained n (vertexCoord n) (unflatten n ⟨v, hv⟩) := Or.inr hx
    show (solutionList n w)[v]! = R
    rw [hub, solved_bc_values k f L R w hsol hcon, bcValue, if_pos hx]

theorem C4_witness :
    (0 : ℚ) < 2 ∧ 4 ≤ 8 ∧ ∃ (st : SolverState) (m : MeshData) (u : List ℚ),
      solveState (mkSolver 2 3 100 0 ((8 : ℕ) : ℤ)) = .ok (st, m, u)
      ∧ ∀ v, v < 81 →
          ((m.vertices[v]!).1 = 0 → u[v]! = 100) ∧ ((m.vertices[v]!).1 = 1 → u[v]! = 0) := by
  refine ⟨by norm_num, by norm_num, ?_⟩
  obtain ⟨st, m, u, hok, -, -, hval⟩ :=
    C4_boundary_values_enforced 2 3 100 0 8 (by norm_num) (by norm_num)
  exact ⟨st, m, u, hok, fun v hv => hval v (by norm_num at hv ⊢; omega)⟩

/-- C7: if any stage of `solve()` fails, the originating error propagates
unchanged to the caller and no partial mesh or solution is retained on the
returned instance state.  On a fresh instance, the only reachable failure
is validation, which happens before any state is written. -/
theorem C7_error_propagation_no_partial_state (k f L R : ℚ) (nz : ℤ)
    (e : SolveError) (st : SolverState)
    (h : solveState (mkSolver k f L R nz) = .error (e, st)) :
    (∃ msg, e = .invalidParameter msg) ∧ st = mkSolver k f L R nz
      ∧ st.mesh = none ∧ st.solution = none := by
  by_cases hk : k ≤ 0
  · rw [(solveState_invalid k f L R nz).1 hk] at h
    simp only [Except.error.injEq, Prod.mk.injEq] at h
    obtain ⟨he, hst⟩ := h
    exact ⟨⟨_, he.symm⟩, hst.symm, by rw [← hst]; rfl, by rw [← hst]; rfl⟩
  · by_cases hnz : nz < 4
    · rw [(solveState_invalid k f L R nz).2 hk hnz] at h
      simp only [Except.error.injEq, Prod.mk.injEq] at h
      obtain ⟨he, hst⟩ := h
      exact ⟨⟨_, he.symm⟩, hst.symm, by rw [← hst]; rfl, by rw [← hst]; rfl⟩
    · exfalso
      obtain ⟨u, -, hok⟩ :=
        solveState_ok (mkSolver k f L R nz) (lt_of_not_le hk) (not_lt.mp hnz)
      rw [hok] at h
      exact absurd h (by simp)

theorem C7_witness :
    solveState (mkSolver (-1 : ℚ) 0 100 0 32)
      = .error (.invalidParameter "Thermal conductivity must be positive",
          mkSolver (-1 : ℚ) 0 100 0 32)
    ∧ (∃ msg, (SolveError.invalidParameter "Thermal conductivity must be positive")
        = .invalidParameter msg)
    ∧ (mkSolver (-1 : ℚ) 0 100 0 32).mesh = none
    ∧ (mkSolver (-1 : ℚ) 0 100 0 32).solution = none := by
  have h : solveState (mkSolver (-1 : ℚ) 0 100 0 32)
      = .error (.invalidParameter "Thermal conductivity must be positive",
          mkSolver (-1 : ℚ) 0 100 0 32) :=
    (solveState_invalid (-1) 0 100 0 32).1 (by norm_num)
  have hc := C7_error_propagation_no_partial_state (-1) 0 100 0 32 _ _ h
  exact ⟨h, hc.1, hc.2.2.1, hc.2.2.2⟩

/-- A successful solve is a fixed point: re-invoking `solve()` on the
resulting instance state re-runs the pipeline on the same parameters and
reproduces the same mesh and solution. -/
theorem solveState_resolve (st st' : SolverState) (m : MeshData) (u : List ℚ)
    (hk : 0 < st.params.k) (hn : 4 ≤ st.params.mesh_resolution)
    (h : solveState st = .ok (st', m, u)) :
    solveState st' = .ok (st', m, u) := by
  obtain ⟨w, hsol, hok⟩ := solveState_ok st hk hn
  rw [hok] at h
  simp only [Except.ok.injEq, Prod.mk.injEq] at h
  obtain ⟨hst, hm, hu⟩ := h
  subst hst
  obtain ⟨w₂, hsol₂, hok₂⟩ := solveState_ok
    (⟨st.params, some (createMesh st.params.mesh_resolution.toNat),
      some (solutionList st.params.mesh_resolution.toNat w)⟩ : SolverState) hk hn
  have hn0 : 0 < st.params.mesh_resolution.toNat := by omega
  have hw : w₂ = w := constrained_solution_unique hn0 hk _ w₂ w hsol₂ hsol
  rw [hok₂, hw, hm, hu]

/-- C8 (amended): within one `solve()` call the stages run strictly in
order, but nothing forbids re-invocation: a second `solve()` on the same
instance is permitted, re-runs the pipeline, returns the same mesh and
solution, and leaves the instance state unchanged. -/
theorem C8_reinvocation_idempotent (k f L R : ℚ) (n : ℕ) (hk : 0 < k) (hn : 4 ≤ n)
    (st : SolverState) (m : MeshData) (u : List ℚ)
    (h : solveState (mkSolver k f L R (n : ℤ)) = .ok (st, m, u)) :
    solveState st = .ok (st, m, u) :=
  solveState_resolve (mkSolver k f L R (n : ℤ)) st m u hk (by simp [mkSolver]; exact_mod_cast hn) h

/-- C8 counterexample: a second invocation of `solve()` on the same
instance is permitted — at the concrete parameters below, the first call
succeeds and calling `solve()` again on the resulting instance succeeds
as well, contradicting the claim that re-entry is not permitted. -/
theorem C8_counterexample :
    ∃ (st : SolverState) (m : MeshData) (u : List ℚ),
      solveState (mkSolver 1 0 100 0 ((8 : ℕ) : ℤ)) = .ok (st, m, u)
      ∧ ∃ (st₂ : SolverState) (m₂ : MeshData) (u₂ : List ℚ),
          solveState st = .ok (st₂, m₂, u₂) := by
  obtain ⟨w, -, hok⟩ := solveState_nat_ok 1 0 100 0 8 (by norm_num) (by norm_num)
  refine ⟨_, _, _, hok, ?_⟩
  obtain ⟨w₂, -, hok₂⟩ := solveState_ok
    (⟨⟨1, 0, 100, 0, ((8 : ℕ) : ℤ)⟩, some (createMesh 8), some (solutionList 8 w)⟩ : SolverState)
    (by norm_num) (by norm_num)
  exact ⟨_, _, _, hok₂⟩

theorem C8_witness :
    (0 : ℚ) < 1 ∧ 4 ≤ 8 ∧ ∃ (st : SolverState) (m : MeshData) (u : List ℚ),
      solveState (mkSolver 1 0 100 0 ((8 : ℕ) : ℤ)) = .ok (st, m, u)
      ∧ solveState st = .ok (st, m, u) := by
  refine ⟨by norm_num, by norm_num, ?_⟩
  obtain ⟨w, -, hok⟩ := solveState_nat_ok 1 0 100 0 8 (by norm_num) (by norm_num)
  exact ⟨_, _, _, hok,
    C8_reinvocation_idempotent 1 0 100 0 8 (by norm_num) (by norm_num) _ _ _ hok⟩

/-- C9: `solve()` is deterministic.  The caller-visible outcome — the error
identity on failure, the `(mesh, solution)` pair on success — depends only
on the parameters, so any two instances with identical parameters
(in particular two separately constructed ones) produce identical meshes
and solutions. -/
theorem C9_deterministic (s t : SolverState) (h : s.params = t.params) :
    resultOf (solveState s) = resultOf (solveState t) := by
  rcases s with ⟨p, m1, u1⟩
  rcases t with ⟨q, m2, u2⟩
  obtain rfl : p = q := h
  unfold solveState
  cases hv : validateParameters p with
  | some e => rfl
  | none =>
    simp only
    by_cases hdg : ∃ (c : Fin p.mesh_resolution.toNat × Fin p.mesh_resolution.toNat)
        (t : Fin 2),
        triDet (vertexCoord p.mesh_resolution.toNat (triVertex c t 0))
          (vertexCoord p.mesh_resolution.toNat (triVertex c t 1))
          (vertexCoord p.mesh_resolution.toNat (triVertex c t 2)) = 0
    · rw [if_pos hdg, if_pos hdg]
      rfl
    · rw [if_neg hdg, if_neg hdg]
      cases habc : applyBoundaryConditions p.mesh_resolution.toNat
          (vertexCoord p.mesh_resolution.toNat)
          (stiffness p.mesh_resolution.toNat p.k)
          (loadVec p.mesh_resolution.toNat p.f) p.left_temp p.right_temp with
      | error e => rfl
      | ok pr =>
        obtain ⟨Ae, be⟩ := pr
        dsimp only
        cases hsl : solveLinearSystem Ae be with
        | none => rfl
        | some w => rfl

theorem C9_witness :
    (mkSolver 1 0 100 0 8).params
      = (⟨⟨1, 0, 100, 0, 8⟩, some ⟨[], []⟩, some []⟩ : SolverState).params
    ∧ resultOf (solveState (mkSolver 1 0 100 0 8))
      = resultOf (solveState (⟨⟨1, 0, 100, 0, 8⟩, some ⟨[], []⟩, some []⟩ : SolverState)) :=
  ⟨rfl, C9_deterministic _ _ rfl⟩

end FEMHeat
